import Mathlib

/-!
Shallow embedding of `src/main.rs` of amcoder/tail-rust (a clone of the Unix
`tail` utility, written against the pre-1.0 Rust standard library) and proofs
about it.

Modelling conventions:
  * Bytes are `Nat` (only the value 10, the line terminator `'\n'`, is ever
    inspected); a file is a `List Nat` of its bytes.
  * `IoResult<T>` is `Except IoErrorKind T`.  In the pre-1.0 Rust `std::io`,
    end-of-file is reported as the error kind `EndOfFile`, not as an `Ok(0)`
    read.
  * A `Reader` is modelled by the sequence of results its successive calls
    return: a generic reader used through `.lines()` becomes a
    `List (Except IoErrorKind (List Nat))` of per-line results, and a reader
    used through `.read(buf)` becomes a list of per-call chunk results.
  * Reads from a regular file are modelled as full reads: `file.read` on a
    buffer of `k` bytes returns exactly `k` bytes while `k` bytes remain.
-/

namespace TailRust

/-- `BUFFER_SIZE` from main.rs line 19. -/
def BUFFER_SIZE : Nat := 1024

/-- The error kinds of pre-1.0 `std::io::IoErrorKind` that this program can
meet: `EndOfFile` (used by readers to signal end of stream), `InvalidInput`
(raised by `read_line` when the bytes of a line are not valid UTF-8), and a
catch-all for every other I/O failure. -/
inductive IoErrorKind where
  | endOfFile
  | invalidInput
  | otherIoError
deriving DecidableEq, Repr

/-- `desc` field of the pre-1.0 `IoError` for the kinds above, as printed by
`main`'s error report. -/
def IoErrorKind.desc : IoErrorKind → String
  | .endOfFile => "end of file"
  | .invalidInput => "invalid input"
  | .otherIoError => "unknown error"

/-- One result of `reader.lines().next()`: a line (its bytes, terminator
included when present) or a non-EndOfFile error. -/
abbrev LineResult := Except IoErrorKind (List Nat)

/-- Forward split of a byte sequence into lines, each line including its
terminating byte 10 when present; a final run of bytes with no terminator is
one (unterminated) line.  This is what successive `read_until(b'\n')` calls
of the pre-1.0 `Buffer::read_line` return, before UTF-8 validation. -/
def splitLines : List Nat → List (List Nat)
  | [] => []
  | c :: rest =>
    if c = 10 then [10] :: splitLines rest
    else
      match splitLines rest with
      | [] => [[c]]
      | l :: ls => (c :: l) :: ls

/-- A UTF-8 continuation byte: `0x80 ≤ c ≤ 0xBF`. -/
def isCont (c : Nat) : Bool := 128 ≤ c && c ≤ 191

/-- Strict UTF-8 validation, as performed by pre-1.0 `String::from_utf8`
(no overlong encodings, no surrogates, no code points above U+10FFFF). -/
def utf8Valid : List Nat → Bool
  | [] => true
  | c :: rest =>
    if c ≤ 127 then
      utf8Valid rest
    else if 194 ≤ c && c ≤ 223 then
      match rest with
      | c1 :: rest1 => isCont c1 && utf8Valid rest1
      | [] => false
    else if 224 ≤ c && c ≤ 239 then
      match rest with
      | c1 :: c2 :: rest2 =>
        (if c = 224 then 160 ≤ c1 && c1 ≤ 191
         else if c = 237 then 128 ≤ c1 && c1 ≤ 159
         else isCont c1) && isCont c2 && utf8Valid rest2
      | _ => false
    else if 240 ≤ c && c ≤ 244 then
      match rest with
      | c1 :: c2 :: c3 :: rest3 =>
        (if c = 240 then 144 ≤ c1 && c1 ≤ 191
         else if c = 244 then 128 ≤ c1 && c1 ≤ 143
         else isCont c1) && isCont c2 && isCont c3 && utf8Valid rest3
      | _ => false
    else
      false

/-- The stream of results produced by `reader.lines()` over a byte source
(main.rs uses it through a `BufferedReader`): each raw line is validated as
UTF-8 — `read_line` returns `Err(InvalidInput)` on a non-UTF-8 line — and the
iterator ends (yields nothing further here) at `EndOfFile`. -/
def readLineResults (bs : List Nat) : List LineResult :=
  (splitLines bs).map (fun l => if utf8Valid l then .ok l else .error .invalidInput)

/-- The emitting loop of `tail_reader_top` (main.rs lines 228-231): for each
line result, `try!` propagates an error, otherwise the line is written.
Returns the lines written (in order) and the error that stopped the loop, if
any. -/
def emitLines : List LineResult → List (List Nat) × Option IoErrorKind
  | [] => ([], none)
  | .error e :: _ => ([], some e)
  | .ok l :: rest =>
    let r := emitLines rest
    (l :: r.1, r.2)

/-- `tail_reader_top` (main.rs lines 225-234): `reader.lines().skip(n)` —
`skip` discards the first `n` iterator items, whether `Ok` or `Err` — then
each remaining line is `try!`-unwrapped and written.  Result: lines written,
and the error returned, if any. -/
def tail_reader_top (n : Nat) (stream : List LineResult) :
    List (List Nat) × Option IoErrorKind :=
  emitLines (stream.drop n)

/-- The reading loop of `tail_reader` (main.rs lines 209-215): each line
result is `try!`-unwrapped; if the `RingBuf` already holds exactly
`item_count` lines its front (oldest) entry is popped; the new line is pushed
at the back.  The list models the `RingBuf` front-first. -/
def tailReaderLoop (n : Nat) :
    List LineResult → List (List Nat) → Except IoErrorKind (List (List Nat))
  | [], buf => .ok buf
  | .error e :: _, _ => .error e
  | .ok l :: rest, buf =>
    tailReaderLoop n rest ((if buf.length = n then buf.drop 1 else buf) ++ [l])

/-- `tail_reader` (main.rs lines 205-222): the whole stream is consumed into
the `RingBuf` first; only after that loop finishes without error is the
buffer written out front-to-back.  Result: lines written, and the error
returned, if any — on error nothing has been written. -/
def tail_reader (n : Nat) (stream : List LineResult) :
    List (List Nat) × Option IoErrorKind :=
  match tailReaderLoop n stream [] with
  | .error e => ([], some e)
  | .ok buf => (buf, none)

/-- One result of a raw `reader.read(buffer)` call: a chunk of bytes, or an
error (`EndOfFile` signalling end of stream). -/
abbrev ReadResult := Except IoErrorKind (List Nat)

/-- `copy_to_end` (main.rs lines 237-250) over the sequence of results its
reader's successive `read` calls return: `Ok(chunk)` — of any length,
including 0 — is written and the loop continues; `Err(EndOfFile)` breaks the
loop and the function returns `Ok(())`; any other error is returned.
Result: all bytes written, and the error returned, if any. -/
def copy_to_end : List ReadResult → List Nat × Option IoErrorKind
  | [] => ([], none)
  | .ok chunk :: rest =>
    let r := copy_to_end rest
    (chunk ++ r.1, r.2)
  | .error .endOfFile :: _ => ([], none)
  | .error e :: _ => ([], some e)

/-- The read results a regular file positioned `bs.length` bytes before its
end delivers: full `BUFFER_SIZE`-byte chunks (the last one shorter), then
`Err(EndOfFile)`. -/
def fileReads : List Nat → List ReadResult
  | [] => [.error .endOfFile]
  | c :: bs =>
    .ok ((c :: bs).take BUFFER_SIZE) :: fileReads ((c :: bs).drop BUFFER_SIZE)
termination_by l => l.length
decreasing_by
  simp [BUFFER_SIZE]
  omega

/-- The reverse scan of one block (main.rs lines 184-193), processing
`buffer[0..bytes_read]` from its last byte to its first.  `rblock` is the
part of the block not yet visited, reversed; `suffix` is the part already
visited, in file order — at original index `i` it equals `block[i+1..]`.
On each byte 10 the newline count is incremented; the moment it exceeds `n`,
`buffer[i+1..bytes_read]` is written and the scan breaks.  Returns the new
newline count and the bytes written, if any. -/
def scanRevAux (n : Nat) : List Nat → List Nat → Nat → Nat × Option (List Nat)
  | [], _, nc => (nc, none)
  | c :: rrest, suffix, nc =>
    if c = 10 then
      if n < nc + 1 then (nc + 1, some suffix)
      else scanRevAux n rrest (c :: suffix) (nc + 1)
    else scanRevAux n rrest (c :: suffix) nc

/-- Reverse scan of a whole block with starting newline count `nc`. -/
def scanBlock (n : Nat) (block : List Nat) (nc : Nat) : Nat × Option (List Nat) :=
  scanRevAux n block.reverse [] nc

/-- The state the backward-reading loop of `tail_file` leaves behind:
`bytesLeft` (`bytes_left`), the file cursor `pos` after the last read,
`newlineCount`, the bytes written during the scan, and the list of
`(offset, length)` block reads the loop performed, in read order. -/
structure ScanOut where
  bytesLeft : Nat
  pos : Nat
  newlineCount : Nat
  written : List Nat
  blocks : List (Nat × Nat)
deriving DecidableEq, Repr

/-- The backward-reading loop of `tail_file` (main.rs lines 174-194).
Loop guard: `bytes_left != 0 && newline_count <= n`.  Each iteration reads
`b = min(bytes_left, BUFFER_SIZE)` bytes after seeking the cursor backward by
`b + bytes_read_previously` relative to its current position (the two-cursor
arithmetic of line 179; on every reachable state `pos = bytesLeft + prevRead`,
so the natural subtraction below is exact), scans the block in reverse, and
continues.  Reads are modelled as full: `bytes_read = bytes_to_read`. -/
def tailFileLoop (file : List Nat) (n : Nat)
    (bytesLeft pos prevRead nc : Nat) : ScanOut :=
  if h : bytesLeft = 0 ∨ n < nc then
    ⟨bytesLeft, pos, nc, [], []⟩
  else
    let b := min bytesLeft BUFFER_SIZE
    let target := pos - (b + prevRead)
    let block := (file.drop target).take b
    let r := scanBlock n block nc
    let rest := tailFileLoop file n (bytesLeft - b) (target + b) b r.1
    ⟨rest.bytesLeft, rest.pos, rest.newlineCount,
      r.2.getD [] ++ rest.written, (target, b) :: rest.blocks⟩
termination_by bytesLeft
decreasing_by
  have hb : 0 < bytesLeft := by omega
  have hm : 0 < min bytesLeft BUFFER_SIZE := by
    simp [BUFFER_SIZE]
    omega
  exact Nat.sub_lt hb hm

/-- `tail_file` (main.rs lines 159-202): stat the file, seek to its end, run
the backward-reading loop, then — if `bytes_left == 0` — seek back to offset
0, and finally `copy_to_end` from the current cursor to the end of the file.
The result is the full byte sequence written to stdout. -/
def tail_file (n : Nat) (file : List Nat) : List Nat :=
  let out := tailFileLoop file n file.length file.length 0 0
  let start := if out.bytesLeft = 0 then 0 else out.pos
  out.written ++ (copy_to_end (fileReads (file.drop start))).1

/-- The per-file loop of `main` (main.rs lines 82-89), with each `tail` call
abstracted by its observable effect: the bytes it wrote to stdout and the
error it returned, if any.  On `Err`, main writes
`"program: file_name: desc"` to stderr and continues with the next file; it
never calls `std::os::set_exit_status`, so the process exit status is the
default 0.  Result: stdout bytes, stderr lines, exit status. -/
def tailBatch (program : String) :
    List (String × (List Nat × Option IoErrorKind)) →
      List Nat × List String × Nat
  | [] => ([], [], 0)
  | (name, (out, err)) :: rest =>
    let r := tailBatch program rest
    (out ++ r.1,
     (match err with
      | some e => [program ++ ": " ++ name ++ ": " ++ e.desc]
      | none => []) ++ r.2.1,
     r.2.2)

/-- `blocksChain e blocks` states that the `(offset, length)` reads in
`blocks`, in order, are immediately adjacent and move toward the start: the
first block ends exactly at `e`, and each later block ends exactly where the
previous one begins (hence all regions are pairwise disjoint). -/
def blocksChain : Nat → List (Nat × Nat) → Prop
  | _, [] => True
  | e, (o, l) :: rest => o + l = e ∧ blocksChain o rest

/-! Helper lemmas, shared by the claim theorems below. -/

theorem emitLines_map_ok (ls : List (List Nat)) :
    emitLines (ls.map Except.ok) = (ls, none) := by
  induction ls with
  | nil => rfl
  | cons l tl ih => simp [emitLines, ih]

theorem emitLines_map_ok_append_error (ls : List (List Nat)) (e : IoErrorKind)
    (rest : List LineResult) :
    emitLines (ls.map Except.ok ++ Except.error e :: rest) = (ls, some e) := by
  induction ls with
  | nil => rfl
  | cons l tl ih => simp [emitLines, ih]

theorem tailReaderLoop_map_ok_append_error (n : Nat) (ls : List (List Nat))
    (e : IoErrorKind) (rest : List LineResult) (buf : List (List Nat)) :
    tailReaderLoop n (ls.map Except.ok ++ Except.error e :: rest) buf = .error e := by
  induction ls generalizing buf with
  | nil => rfl
  | cons l tl ih => simp [tailReaderLoop, ih]

theorem tailReaderLoop_error_of_mem (n : Nat) (stream : List LineResult)
    (buf : List (List Nat)) (h : ∃ e, Except.error e ∈ stream) :
    ∃ e', tailReaderLoop n stream buf = .error e' := by
  induction stream generalizing buf with
  | nil => simp at h
  | cons r tl ih =>
    match r with
    | .error e => exact ⟨e, rfl⟩
    | .ok l =>
      apply ih
      obtain ⟨e, he⟩ := h
      simp at he
      exact ⟨e, he⟩

theorem tailReaderLoop_mem_of_mem (n : Nat) (S : List (List Nat)) :
    ∀ (stream : List LineResult) (buf buf' : List (List Nat)),
      (∀ l, Except.ok l ∈ stream → l ∈ S) → (∀ l ∈ buf, l ∈ S) →
      tailReaderLoop n stream buf = .ok buf' → ∀ l ∈ buf', l ∈ S := by
  intro stream
  induction stream with
  | nil =>
    intro buf buf' _ hbuf heq
    simp [tailReaderLoop] at heq
    rwa [← heq]
  | cons r tl ih =>
    intro buf buf' hs hbuf heq
    match r with
    | .error e => simp [tailReaderLoop] at heq
    | .ok l =>
      refine ih ((if buf.length = n then buf.drop 1 else buf) ++ [l]) buf' ?_ ?_ heq
      · intro l' hl'
        exact hs l' (List.mem_cons_of_mem _ hl')
      · intro l' hl'
        rcases List.mem_append.mp hl' with hin | hin
        · apply hbuf
          split at hin
          · exact List.mem_of_mem_drop hin
          · exact hin
        · simp at hin
          subst hin
          exact hs l' (List.mem_cons_self _ _)

theorem copy_fileReads : ∀ bs : List Nat, copy_to_end (fileReads bs) = (bs, none)
  | [] => by
    rw [fileReads]
    rfl
  | c :: bs => by
    rw [fileReads]
    simp [copy_to_end, copy_fileReads ((c :: bs).drop BUFFER_SIZE)]
termination_by bs => bs.length
decreasing_by
  simp [BUFFER_SIZE]
  omega

theorem readLineResults_all_valid (bs : List Nat)
    (h : ∀ l ∈ splitLines bs, utf8Valid l = true) :
    readLineResults bs = (splitLines bs).map Except.ok := by
  unfold readLineResults
  apply List.map_congr_left
  intro l hl
  simp [h l hl]

theorem tailFileLoop_blocks_inv (file : List Nat) (n : Nat)
    (bytesLeft pos prevRead nc : Nat) (hpos : pos = bytesLeft + prevRead) :
    ((tailFileLoop file n bytesLeft pos prevRead nc).bytesLeft = 0 ∨
        n < (tailFileLoop file n bytesLeft pos prevRead nc).newlineCount) ∧
      blocksChain bytesLeft (tailFileLoop file n bytesLeft pos prevRead nc).blocks ∧
      ((tailFileLoop file n bytesLeft pos prevRead nc).blocks.map Prod.snd).sum
          + (tailFileLoop file n bytesLeft pos prevRead nc).bytesLeft = bytesLeft := by
  rw [tailFileLoop]
  split
  · next hstop => simpa [blocksChain] using hstop
  · next hgo =>
    have hble : min bytesLeft BUFFER_SIZE ≤ bytesLeft := Nat.min_le_left _ _
    have hbpos : 0 < min bytesLeft BUFFER_SIZE := by
      simp [BUFFER_SIZE]
      omega
    have htarget : pos - (min bytesLeft BUFFER_SIZE + prevRead)
        = bytesLeft - min bytesLeft BUFFER_SIZE := by omega
    dsimp only
    rw [htarget]
    have ih := tailFileLoop_blocks_inv file n
      (bytesLeft - min bytesLeft BUFFER_SIZE)
      (bytesLeft - min bytesLeft BUFFER_SIZE + min bytesLeft BUFFER_SIZE)
      (min bytesLeft BUFFER_SIZE)
      (scanBlock n
        ((file.drop (bytesLeft - min bytesLeft BUFFER_SIZE)).take
          (min bytesLeft BUFFER_SIZE)) nc).1
      rfl
    refine ⟨ih.1, ⟨by omega, ih.2.1⟩, ?_⟩
    simp only [List.map_cons, List.sum_cons]
    omega
termination_by bytesLeft
decreasing_by
  have hb : 0 < bytesLeft := by omega
  have hm : 0 < min bytesLeft BUFFER_SIZE := by
    simp [BUFFER_SIZE]
    omega
  exact Nat.sub_lt hb hm

/-! Claim theorems. -/

/-- Claim C1: the spec demands that the from-bottom seekable path emit exactly
the last `min(N, L)` lines, with the concrete scenario `"a\nb\nc\nd\n"`,
`N = 2` producing `"c\nd\n"`.  Evaluating the code at that input shows it
instead writes `"c\nd\n"` followed by the whole file again: the scan found
all newlines in the block that touched the start of the file, so
`bytes_left == 0`, the `if bytes_left == 0` branch seeks back to offset 0 —
contradicting its own comment, which reserves it for the case where the
newlines were not all found — and `copy_to_end` re-copies the entire file. -/
theorem C1_small_file_output_duplicated :
    tail_file 2 [97, 10, 98, 10, 99, 10, 100, 10]
        = [99, 10, 100, 10, 97, 10, 98, 10, 99, 10, 100, 10] ∧
    tail_file 2 [97, 10, 98, 10, 99, 10, 100, 10] ≠ [99, 10, 100, 10] := by
  have h : tail_file 2 [97, 10, 98, 10, 99, 10, 100, 10]
      = [99, 10, 100, 10, 97, 10, 98, 10, 99, 10, 100, 10] := by
    simp [tail_file, tailFileLoop, scanBlock, scanRevAux, fileReads, copy_to_end,
      BUFFER_SIZE]
  exact ⟨h, by rw [h]; decide⟩

/-- Claim C2: the spec demands empty output for `N = 0` in from-bottom mode on
both paths.  Evaluating the code: on the seekable path the file `"a\n"` with
`N = 0` is emitted whole (the first newline makes `newline_count > 0` at once,
and since that block reached the file start, `bytes_left == 0` triggers the
seek to offset 0 and a full copy); on the non-seekable path with `N = 0` the
`RingBuf` length check `len == 0` stops firing after the first push, so every
line is retained and emitted. -/
theorem C2_n_zero_from_bottom_emits_everything :
    tail_file 0 [97, 10] = [97, 10] ∧
    tail_reader 0 [Except.ok [98, 10], Except.ok [99, 10]]
        = ([[98, 10], [99, 10]], none) := by
  constructor
  · simp [tail_file, tailFileLoop, scanBlock, scanRevAux, fileReads, copy_to_end,
      BUFFER_SIZE]
  · decide

/-- Claim C3: the spec demands that the rolling container never exceed `N`
entries and that exactly `min(N, L)` lines be emitted, for every `N`.
Evaluating the code at `N = 0` with a two-line stream: the `RingBuf` ends the
reading loop holding two entries (the `len == item_count` pop condition only
matches the empty buffer when `item_count = 0`), and both lines are emitted
instead of none. -/
theorem C3_window_exceeds_capacity_zero :
    tailReaderLoop 0 [Except.ok [120], Except.ok [121]] [] = .ok [[120], [121]] ∧
    tail_reader 0 [Except.ok [120], Except.ok [121]] = ([[120], [121]], none) :=
  ⟨rfl, rfl⟩

/-- Claim C4: `tail_reader_top` consumes its reader only through
`reader.lines()`; over any stream of `L` successfully delivered lines and any
skip count `N` it emits exactly the lines after the first `N`, byte-identical
and in order — that is, `max(L - N, 0)` lines (`List.length` subtraction on
`Nat` is truncated); `N = 0` passes everything through, and a stream of fewer
than `N` lines yields nothing. -/
theorem C4_forward_skipper_emits_drop (n : Nat) (ls : List (List Nat)) :
    tail_reader_top n (ls.map Except.ok) = (ls.drop n, none) ∧
    (tail_reader_top n (ls.map Except.ok)).1.length = ls.length - n := by
  have h : tail_reader_top n (ls.map Except.ok) = (ls.drop n, none) := by
    unfold tail_reader_top
    rw [← List.map_drop]
    exact emitLines_map_ok _
  exact ⟨h, by rw [h]; simp⟩

/-- Claim C5, counterexample: the claim promises byte-identical emission on
the line-by-line paths for arbitrary byte content, but the line paths go
through `read_line`, which converts each line with `String::from_utf8`.  On
the single-line input `0xFF 0x0A` — not valid UTF-8 — from-top mode with
`N = 0` (full passthrough per the claim) emits nothing and returns
`InvalidInput` instead of the line's bytes. -/
theorem C5_counterexample_non_utf8_line :
    tail_reader_top 0 (readLineResults [255, 10])
        = ([], some IoErrorKind.invalidInput) ∧
    splitLines [255, 10] = [[255, 10]] := by
  decide

/-- Claim C5, amended: emitted bytes are always the source's own bytes with no
transformation, but on the line-by-line paths this holds only for lines that
are valid UTF-8 (a non-UTF-8 line raises `InvalidInput` instead of being
emitted): when every line of the input is valid UTF-8, `tail_reader_top`
emits exactly the input's lines after the skipped prefix, every line
`tail_reader` emits is byte-identical to an input line, and the stream-copier
path writes the source bytes verbatim. -/
theorem C5_line_paths_byte_exact_on_utf8 (bs : List Nat) (n : Nat)
    (h : ∀ l ∈ splitLines bs, utf8Valid l = true) :
    tail_reader_top n (readLineResults bs) = ((splitLines bs).drop n, none) ∧
    (∀ l ∈ (tail_reader n (readLineResults bs)).1, l ∈ splitLines bs) ∧
    copy_to_end (fileReads bs) = (bs, none) := by
  have hmap := readLineResults_all_valid bs h
  refine ⟨?_, ?_, copy_fileReads bs⟩
  · unfold tail_reader_top
    rw [hmap, ← List.map_drop]
    exact emitLines_map_ok _
  · intro l hl
    unfold tail_reader at hl
    cases heq : tailReaderLoop n (readLineResults bs) [] with
    | error e =>
      rw [heq] at hl
      simp at hl
    | ok buf =>
      rw [heq] at hl
      simp at hl
      refine tailReaderLoop_mem_of_mem n (splitLines bs) (readLineResults bs)
        [] buf ?_ (by simp) heq l hl
      intro l' hl'
      rw [hmap] at hl'
      simpa using hl'

/-- Claim C5, witness: the amended theorem applied to the concrete input
`"a\nb"` (every line valid UTF-8) with `N = 1`. -/
theorem C5_line_paths_byte_exact_on_utf8_witness :
    tail_reader_top 1 (readLineResults [97, 10, 98])
        = ((splitLines [97, 10, 98]).drop 1, none) ∧
    (∀ l ∈ (tail_reader 1 (readLineResults [97, 10, 98])).1,
        l ∈ splitLines [97, 10, 98]) ∧
    copy_to_end (fileReads [97, 10, 98]) = ([97, 10, 98], none) :=
  C5_line_paths_byte_exact_on_utf8 [97, 10, 98] 1 (by decide)

/-- Claim C6, counterexample: the claim says a read error among the first `N`
discarded lines in from-top mode is returned to the dispatcher.  In the code
`reader.lines().skip(n)` discards the first `n` iterator items whether they
are `Ok` or `Err`: with `N = 1` and a stream whose first line fails with
`InvalidInput`, the error vanishes, the next line is emitted, and the function
returns success. -/
theorem C6_counterexample_skip_swallows_error :
    tail_reader_top 1 [Except.error IoErrorKind.invalidInput, Except.ok [98, 10]]
        = ([[98, 10]], none) := by
  decide

/-- Claim C6, amended: every I/O error on the from-bottom reader path aborts
processing immediately and is returned, and on the from-top path every error
among the lines after the skipped prefix does too; but an error among the
first `N` lines being discarded by `skip(n)` in from-top mode is silently
dropped.  Formally: with `ls` error-free lines and the first error `e` at
position `ls.length ≥ N`, `tail_reader_top` emits the post-skip prefix and
returns `e`, and `tail_reader` emits nothing and returns `e`. -/
theorem C6_errors_after_skip_propagate (n : Nat) (ls : List (List Nat))
    (e : IoErrorKind) (rest : List LineResult) (h : n ≤ ls.length) :
    tail_reader_top n (ls.map Except.ok ++ Except.error e :: rest)
        = (ls.drop n, some e) ∧
    tail_reader n (ls.map Except.ok ++ Except.error e :: rest) = ([], some e) := by
  constructor
  · unfold tail_reader_top
    rw [List.drop_append_of_le_length (by simpa using h), ← List.map_drop]
    exact emitLines_map_ok_append_error ..
  · unfold tail_reader
    rw [tailReaderLoop_map_ok_append_error]

/-- Claim C6, witness: the amended theorem applied to the one-good-line,
then-error stream with `N = 1`. -/
theorem C6_errors_after_skip_propagate_witness :
    tail_reader_top 1 ([[97]].map Except.ok ++ Except.error IoErrorKind.otherIoError :: ([] : List LineResult))
        = ([[97]].drop 1, some IoErrorKind.otherIoError) ∧
    tail_reader 1 ([[97]].map Except.ok ++ Except.error IoErrorKind.otherIoError :: ([] : List LineResult))
        = ([], some IoErrorKind.otherIoError) :=
  C6_errors_after_skip_propagate 1 [[97]] IoErrorKind.otherIoError [] (by decide)

/-- Claim C7, counterexample: on a batch where the second of three sources
fails, the claim requires a non-zero final exit status.  `main` reports the
error and continues, but never calls `std::os::set_exit_status`, so the
process exits with status 0. -/
theorem C7_counterexample_exit_status_zero :
    tailBatch "tail"
        [("a", ([49], none)), ("b", ([], some IoErrorKind.otherIoError)),
          ("c", ([51], none))]
      = ([49, 51], ["tail: b: unknown error"], 0) := by
  rfl

/-- Claim C7, amended: a failure on one source is reported on stderr with the
program name, the offending source's name and the error description; the
remaining sources are still processed and their output emitted in order; but
the process's final exit status is 0 regardless of failures. -/
theorem C7_batch_continues_but_exits_zero (program : String)
    (sources : List (String × (List Nat × Option IoErrorKind))) :
    (tailBatch program sources).1 = (sources.map (fun s => s.2.1)).flatten ∧
    (tailBatch program sources).2.1 =
      sources.filterMap
        (fun s => s.2.2.map (fun e => program ++ ": " ++ s.1 ++ ": " ++ e.desc)) ∧
    (tailBatch program sources).2.2 = 0 := by
  induction sources with
  | nil => exact ⟨rfl, rfl, rfl⟩
  | cons s rest ih =>
    obtain ⟨name, out, err⟩ := s
    cases err with
    | none => simp [tailBatch, List.filterMap_cons, ih.1, ih.2.1, ih.2.2]
    | some e => simp [tailBatch, List.filterMap_cons, ih.1, ih.2.1, ih.2.2]

/-- Claim C8: the backward scan of `tail_file`, started as `tail_file` starts
it (cursor at end-of-file, `bytes_left = size`, `bytes_read = 0`,
`newline_count = 0`), stops exactly when `newline_count` exceeds `n` or the
start of the source is reached (`bytes_left = 0`), whichever first; its
successive block reads, produced by the seek-by-current-plus-previous-block
arithmetic, are immediately adjacent disjoint regions walking toward the
start (the first ends at the file size, each next ends where the previous
began); and the cumulative number of bytes scanned never exceeds the source
length. -/
theorem C8_backward_scan_invariant (file : List Nat) (n : Nat) :
    ((tailFileLoop file n file.length file.length 0 0).bytesLeft = 0 ∨
        n < (tailFileLoop file n file.length file.length 0 0).newlineCount) ∧
      blocksChain file.length
        (tailFileLoop file n file.length file.length 0 0).blocks ∧
      ((tailFileLoop file n file.length file.length 0 0).blocks.map
            Prod.snd).sum ≤ file.length := by
  obtain ⟨h1, h2, h3⟩ := tailFileLoop_blocks_inv file n file.length file.length 0 0 rfl
  exact ⟨h1, h2, by omega⟩

/-- Claim C9, counterexample: the claim says a read returning 0 bytes with no
error signals completion of the copy.  In `copy_to_end` the only exit from
the loop is the `Err(EndOfFile)` arm: an `Ok` read of 0 bytes falls through
the `Ok(n) => n` arm, an empty slice is written, and the loop continues —
here a 0-byte `Ok` read followed by more data still yields that data. -/
theorem C9_counterexample_ok_empty_read_not_completion :
    copy_to_end [Except.ok [], Except.ok [65], Except.error IoErrorKind.endOfFile]
        = ([65], none) ∧
    ([65] : List Nat) ≠ [] := by
  decide

/-- Claim C9, amended: `copy_to_end` terminates for every finite source,
reading fixed-size blocks until end-of-source; completion is signalled by a
read returning an `EndOfFile` error — treated as success, not failure — while
an `Ok` read of 0 bytes is not a completion signal (the loop continues).  For
a file-backed reader it copies every remaining byte and returns success. -/
theorem C9_copy_terminates_at_eof (bs : List Nat) :
    copy_to_end (fileReads bs) = (bs, none) :=
  copy_fileReads bs

/-- Claim C10: `tail_reader` writes nothing before its reading loop has
consumed the whole stream successfully: the flush loop runs only after every
line was `try!`-unwrapped, so if any read error occurs anywhere in the
stream, the function returns that failure with nothing at all written. -/
theorem C10_nothing_written_on_error (n : Nat) (stream : List LineResult)
    (h : ∃ e, Except.error e ∈ stream) :
    (tail_reader n stream).1 = [] ∧ (tail_reader n stream).2 ≠ none := by
  obtain ⟨e', heq⟩ := tailReaderLoop_error_of_mem n stream [] h
  unfold tail_reader
  rw [heq]
  simp

/-- Claim C10, witness: the theorem applied to a stream with one good line
followed by a read error. -/
theorem C10_nothing_written_on_error_witness :
    (tail_reader 1 [Except.ok [97], Except.error IoErrorKind.otherIoError]).1 = [] ∧
    (tail_reader 1 [Except.ok [97], Except.error IoErrorKind.otherIoError]).2 ≠ none :=
  C10_nothing_written_on_error 1
    [Except.ok [97], Except.error IoErrorKind.otherIoError]
    ⟨IoErrorKind.otherIoError, by simp⟩

end TailRust
